import Mathlib

/-!
Verification of the prompt-gen pipeline repository.

The development shallowly embeds:
* the JSON value model and Python truthiness used by the HTTP router;
* the router `create_prompt` from `src/prompt_gen/prompt_gen/api/routers/prompt.py`;
* the pydantic request schema `PromptGenInput` from
  `src/prompt_gen/prompt_gen/schemas.py`;
* the placeholder-decoding algorithm and the sequential Pipeline Runner,
  which have no executable form under `src/` (decoding lives only as model
  instructions inside the task descriptions of `crew.py`; the stage executor
  is the external CrewAI library) and are therefore modelled from the spec.
-/

/-- JSON values as handled by `json.loads` in the router: null, booleans,
numbers (integral model), strings, arrays and objects (ordered key/value
pairs, keys unique as in a Python dict). -/
inductive Json where
  | null : Json
  | bool : Bool → Json
  | num : Int → Json
  | str : String → Json
  | arr : List Json → Json
  | obj : List (String × Json) → Json

/-- Python truthiness of a JSON value (`if not final_data`, `if not final_prompt`):
`None`, `False`, `0`, `""`, `[]` and `{}` are falsy, everything else truthy. -/
def Json.truthy : Json → Bool
  | .null => false
  | .bool b => b
  | .num n => n != 0
  | .str s => s != ""
  | .arr xs => !xs.isEmpty
  | .obj kvs => !kvs.isEmpty

/-- Whether a JSON value is an object (`isinstance(final_data, dict)`). -/
def Json.isObj : Json → Bool
  | .obj _ => true
  | _ => false

/-- The result object handed to the router by `crew().kickoff`: the
structured parse (`result.json_dict`, a dict or `None`) and the raw response
text (`result.raw`, a string or `None`). -/
structure CrewResult where
  json_dict : Option Json
  raw : Option String

/-- The error responses `create_prompt` can raise (each an HTTP 500 with the
given detail in the source):
* `nonJsonOutput raw` — "Agent returned non-JSON output. Raw response was: raw";
* `noValidJsonStructure` — "No valid JSON structure from final prompt.";
* `noFinalPrompt` — missing or falsy `final_prompt` in the final JSON (the
  `FinalResultInvalid` kind of the spec). -/
inductive ApiError where
  | nonJsonOutput : String → ApiError
  | noValidJsonStructure : ApiError
  | noFinalPrompt : ApiError
deriving DecidableEq

/-- The success payload returned by the router:
`{"status": "success", "final_prompt": ..., "notes": ...}`. -/
structure SuccessResponse where
  status : String
  final_prompt : Json
  notes : Json

/-- Python `a or b` on an optional string (`result.raw or ""`). -/
def pyOrStr : Option String → String → String
  | none, d => d
  | some s, d => if s = "" then d else s

/-- First phase of `create_prompt`: take `result.json_dict`; if it is falsy
(`None` or an empty dict), fall back to `json.loads(result.raw or "")`,
raising the non-JSON error when parsing fails. `parse` stands for
`json.loads`, returning `none` on `JSONDecodeError`. -/
def resolveFinalData (parse : String → Option Json) (res : CrewResult) :
    Except ApiError Json :=
  match res.json_dict with
  | some j =>
    if j.truthy then .ok j
    else
      match parse (pyOrStr res.raw "") with
      | none => .error (.nonJsonOutput (pyOrStr res.raw ""))
      | some j2 => .ok j2
  | none =>
    match parse (pyOrStr res.raw "") with
    | none => .error (.nonJsonOutput (pyOrStr res.raw ""))
    | some j2 => .ok j2

/-- Last phase of `create_prompt`, once `final_data` is known to be a JSON
object: `final_data.get("final_prompt")` must be truthy, and the success
payload carries it together with `final_data.get("notes", [])`. -/
def finishWithObj (kvs : List (String × Json)) : Except ApiError SuccessResponse :=
  match kvs.lookup "final_prompt" with
  | none => .error .noFinalPrompt
  | some fp =>
    if fp.truthy then
      .ok ⟨"success", fp, (kvs.lookup "notes").getD (.arr [])⟩
    else .error .noFinalPrompt

/-- The router `create_prompt` of `api/routers/prompt.py`, given the crew
result: resolve the final data (structured parse, falling back to raw text),
require a JSON object, require a truthy `final_prompt`, and return the
success payload with status "success", that `final_prompt`, and the `notes`
value defaulting to an empty list. -/
def create_prompt (parse : String → Option Json) (res : CrewResult) :
    Except ApiError SuccessResponse :=
  match resolveFinalData parse res with
  | .error e => .error e
  | .ok final_data =>
    match final_data with
    | .obj kvs => finishWithObj kvs
    | _ => .error .noValidJsonStructure

/-- A string field of a JSON body (no pydantic coercion is modelled; the
claims here only need well-typed values and missing keys). -/
def Json.getStr : Json → Option String
  | .str s => some s
  | _ => none

/-- All-strings extraction from a JSON list (the pydantic check of a
`List[str]` field): succeeds iff every element is a string. -/
def Json.getStrList : List Json → Option (List String)
  | [] => some []
  | j :: js =>
    match j.getStr with
    | some s =>
      match Json.getStrList js with
      | some ss => some (s :: ss)
      | none => none
    | none => none

/-- The request schema `PromptGenInput` of `schemas.py`: four required
fields and an optional `output_schema` defaulting to `None`. -/
structure PromptGenInput where
  problem_statement : String
  domain : String
  input_placeholders : List String
  output_context : String
  output_schema : Option String
deriving DecidableEq, Repr

/-- Pydantic validation of a JSON request body against `PromptGenInput`,
as FastAPI performs it before `create_prompt` runs: every required field
must be present with the declared type; `input_placeholders` must be a list
of strings; `output_schema` may be absent or null. The source declares no
constraint beyond the types (no emptiness check). -/
def validatePromptGenInput (body : List (String × Json)) : Option PromptGenInput := do
  let ps ← (body.lookup "problem_statement").bind Json.getStr
  let d ← (body.lookup "domain").bind Json.getStr
  let phsJson ← body.lookup "input_placeholders"
  let phs ← match phsJson with
    | .arr xs => Json.getStrList xs
    | _ => none
  let oc ← (body.lookup "output_context").bind Json.getStr
  let os ← match body.lookup "output_schema" with
    | none => some none
    | some .null => some none
    | some j => (Json.getStr j).map some
  pure ⟨ps, d, phs, oc, os⟩

/-- A request body whose four required fields are well-typed JSON values. -/
def mkRequestBody (ps d : String) (phs : List String) (oc : String) :
    List (String × Json) :=
  [("problem_statement", .str ps), ("domain", .str d),
   ("input_placeholders", .arr (phs.map Json.str)),
   ("output_context", .str oc)]

/-- Leading and trailing whitespace removed, as both Python `str.strip()` and
the trimming of the placeholder-decoding algorithm do. -/
def trimChars (l : List Char) : List Char :=
  ((l.dropWhile Char.isWhitespace).reverse.dropWhile Char.isWhitespace).reverse

/-- Split a character list at its first colon: `some (left, right)` when a
colon occurs, with the colon itself dropped, `none` when no colon occurs. -/
def splitAtFirstColon : List Char → Option (List Char × List Char)
  | [] => none
  | c :: cs =>
    if c = ':' then some ([], cs)
    else
      match splitAtFirstColon cs with
      | some (l, r) => some (c :: l, r)
      | none => none

/-- One decoded placeholder: a name and a possibly empty description. -/
structure DecodedPlaceholder where
  name : String
  description : String
deriving DecidableEq, Repr

/-- Modelled from the spec: the placeholder-decoding algorithm of the input
analysis stage (it has no executable form under `src/`; in `crew.py` it
exists only as natural-language instructions inside the description of
`input_analysis_task`). Per the spec, split on the first colon only; when a
colon is present the trimmed left part becomes the name and the trimmed
right part the description; otherwise the name is the whole trimmed string
and the description is empty. -/
def decodePlaceholder (s : String) : DecodedPlaceholder :=
  match splitAtFirstColon s.data with
  | some (l, r) => ⟨String.mk (trimChars l), String.mk (trimChars r)⟩
  | none => ⟨String.mk (trimChars s.data), ""⟩

/-- Modelled from the spec: decoding a sequence of placeholders produces an
ordered sequence of name/description pairs preserving input order. -/
def decodePlaceholders (ss : List String) : List DecodedPlaceholder :=
  ss.map decodePlaceholder

/-- A stage definition of the Pipeline Runner: its name, the role text of
its agent, and the upstream stages whose outputs feed its context. The
concrete values below come from the tasks of `crew.py`. -/
structure StageDef where
  name : String
  agentRole : String
  upstream : List String
deriving DecidableEq, Repr

/-- The Pipeline Context: prior stage outputs in order, keyed by stage name. -/
abbrev PipelineCtx := List (String × Json)

/-- The failure kinds of a pipeline run relevant to the embedded claims:
`stageOutputInvalid stage raw` identifies the failing stage and the raw
text received; `finalResultInvalid` is the final-schema failure. -/
inductive RunError where
  | stageOutputInvalid : String → String → RunError
  | finalResultInvalid : RunError
deriving DecidableEq, Repr

/-- The Final Result: a non-empty prompt and revision notes. -/
structure FinalResult where
  final_prompt : String
  notes : List String
deriving DecidableEq, Repr

/-- Modelled from the spec: validation of the last stage output against the
Final Result schema — it must contain a non-empty string `final_prompt`,
and `notes` defaults to the empty sequence when absent. -/
def validateFinal (kvs : List (String × Json)) : Except RunError FinalResult :=
  match kvs.lookup "final_prompt" with
  | some (.str p) =>
    if p = "" then .error .finalResultInvalid
    else
      match kvs.lookup "notes" with
      | none => .ok ⟨p, []⟩
      | some (.arr xs) =>
        match Json.getStrList xs with
        | some ns => .ok ⟨p, ns⟩
        | none => .error .finalResultInvalid
      | some _ => .error .finalResultInvalid
  | some _ => .error .finalResultInvalid
  | none => .error .finalResultInvalid

/-- Modelled from the spec: the stage loop of the Pipeline Runner (the
executor is the external CrewAI library, not code under `src/`). `invoke`
abstracts the model-invocation boundary (instruction building plus text
completion, an external collaborator): given the stage and the current
Pipeline Context it returns the raw response text. Each stage in order is
invoked once, its response parsed as JSON; a response that fails to parse or
is not an object aborts the run with `stageOutputInvalid`; otherwise the
parsed object is appended to the context under the stage name. The first
component of the result is the trace of stages actually invoked. -/
def runStagesTrace (invoke : StageDef → PipelineCtx → String)
    (parse : String → Option Json) :
    List StageDef → PipelineCtx → List String × Except RunError PipelineCtx
  | [], ctx => ([], .ok ctx)
  | st :: rest, ctx =>
    match parse (invoke st ctx) with
    | some (.obj kvs) =>
      let next := runStagesTrace invoke parse rest (ctx ++ [(st.name, .obj kvs)])
      (st.name :: next.1, next.2)
    | some _ => ([st.name], .error (.stageOutputInvalid st.name (invoke st ctx)))
    | none => ([st.name], .error (.stageOutputInvalid st.name (invoke st ctx)))

/-- The Pipeline Context accumulated after running the given stages from
`ctx`, assuming they all succeed (used to name the context in which a later
stage is invoked). -/
def ctxAfter (invoke : StageDef → PipelineCtx → String)
    (parse : String → Option Json) :
    List StageDef → PipelineCtx → PipelineCtx
  | [], ctx => ctx
  | st :: rest, ctx =>
    match parse (invoke st ctx) with
    | some (.obj kvs) => ctxAfter invoke parse rest (ctx ++ [(st.name, .obj kvs)])
    | _ => ctx

/-- Modelled from the spec: a full pipeline run — execute the stages in
declared order from an empty context, then validate the final stage output
against the Final Result schema. Returns the trace of invoked stages and
either the Final Result or the failure kind. -/
def runPipeline (invoke : StageDef → PipelineCtx → String)
    (parse : String → Option Json) (stages : List StageDef) :
    List String × Except RunError FinalResult :=
  match runStagesTrace invoke parse stages [] with
  | (tr, .error e) => (tr, .error e)
  | (tr, .ok ctx) =>
    match ctx.getLast? with
    | some (_, .obj kvs) => (tr, validateFinal kvs)
    | _ => (tr, .error .finalResultInvalid)

/-- The five-stage sequential pipeline declared by the `crew` method of
`crew.py` (`process=Process.sequential`, tasks in listed order), with each
task agent role and declared context dependencies. -/
def promptGenStages : List StageDef :=
  [⟨"domain_breakdown_task", "Domain Breakdown Analyzer for {domain}", []⟩,
   ⟨"input_analysis_task", "Input Analysis Agent in {domain}",
     ["domain_breakdown_task"]⟩,
   ⟨"schema_inference_task", "Schema Inference Expert for {domain}",
     ["input_analysis_task"]⟩,
   ⟨"prompt_construction_task", "Prompt Constructor for {domain}",
     ["schema_inference_task"]⟩,
   ⟨"prompt_refinement_task", "Prompt Refiner for {domain}",
     ["prompt_construction_task"]⟩]

/-- A stub model responding to each stage with that stage name as raw text. -/
def stubInvoke : StageDef → PipelineCtx → String := fun st _ => st.name

/-- A stub parse under which every stage yields a well-formed JSON object
and the refinement stage yields a valid Final Result. -/
def stubParseGood : String → Option Json := fun raw =>
  if raw = "prompt_refinement_task" then
    some (.obj [("final_prompt", .str "Use <<article>> verbatim."),
                ("notes", .arr [])])
  else some (.obj [("stage_echo", .str raw)])

/-- A stub parse under which the schema-inference stage returns non-JSON
text and every other stage yields a well-formed JSON object. -/
def stubParseBadAtSchema : String → Option Json := fun raw =>
  if raw = "schema_inference_task" then none
  else some (.obj [("stage_echo", .str raw)])

/-- A request-indexed stub model: whatever the request, respond to each
stage with that stage name as raw text. -/
def stubMkInvoke : PromptGenInput → StageDef → PipelineCtx → String :=
  fun _ => stubInvoke

/-! ### Lemmas on trimming and first-colon splitting -/

lemma string_mk_data (x : List Char) : (String.mk x).data = x := rfl

lemma mem_of_mem_trimChars {a : Char} {l : List Char} (h : a ∈ trimChars l) :
    a ∈ l := by
  unfold trimChars at h
  rw [List.mem_reverse] at h
  have h2 := ((List.dropWhile_suffix _).sublist).mem h
  rw [List.mem_reverse] at h2
  exact ((List.dropWhile_suffix _).sublist).mem h2

lemma not_isWhitespace_head_dropWhile {l : List Char} {a : Char} {t : List Char}
    (h : l.dropWhile Char.isWhitespace = a :: t) : ¬ a.isWhitespace := by
  intro hp
  have := List.dropWhile_idempotent Char.isWhitespace l
  rw [h, List.dropWhile_cons, if_pos hp] at this
  have hlen := ((List.dropWhile_suffix (l := t) Char.isWhitespace).sublist).length_le
  rw [this] at hlen
  simp at hlen

lemma dropWhile_trimChars (l : List Char) :
    (trimChars l).dropWhile Char.isWhitespace = trimChars l := by
  unfold trimChars
  set p := Char.isWhitespace with hp
  set A := l.dropWhile p with hA
  cases hd : (A.reverse.dropWhile p).reverse with
  | nil => simp [hd]
  | cons b s =>
    have hne : A.reverse.dropWhile p ≠ [] := by
      intro h0
      rw [h0] at hd
      simp at hd
    obtain ⟨u, hu⟩ := List.dropWhile_suffix (l := A.reverse) p
    have hlast : (A.reverse.dropWhile p).getLast? = A.reverse.getLast? := by
      conv_rhs => rw [← hu]
      exact (List.getLast?_append_of_ne_nil u hne).symm
    have hrevlast : A.reverse.getLast? = A.head? := by
      have := List.head?_reverse A.reverse
      rw [List.reverse_reverse] at this
      exact this.symm
    have hhead : (A.reverse.dropWhile p).reverse.head? = A.head? := by
      rw [List.head?_reverse, hlast, hrevlast]
    rw [hd] at hhead
    cases hA2 : A with
    | nil =>
      rw [hA2] at hhead
      simp at hhead
    | cons a t =>
      rw [hA2] at hhead
      simp only [List.head?_cons, Option.some.injEq] at hhead
      have hnp : ¬ a.isWhitespace := not_isWhitespace_head_dropWhile (hA ▸ hA2)
      rw [List.dropWhile_cons, if_neg (by rw [hhead]; exact hnp)]

lemma trimChars_idem (l : List Char) :
    trimChars (trimChars l) = trimChars l := by
  conv_lhs => rw [trimChars, dropWhile_trimChars]
  rw [trimChars, List.reverse_reverse, List.dropWhile_idempotent]

lemma splitAtFirstColon_eq_none {l : List Char} (h : ':' ∉ l) :
    splitAtFirstColon l = none := by
  induction l with
  | nil => rfl
  | cons c cs ih =>
    simp only [List.mem_cons, not_or] at h
    unfold splitAtFirstColon
    rw [if_neg (fun hc => h.1 hc.symm), ih h.2]

lemma colon_notMem_of_splitAtFirstColon_none {l : List Char}
    (h : splitAtFirstColon l = none) : ':' ∉ l := by
  induction l with
  | nil => simp
  | cons c cs ih =>
    unfold splitAtFirstColon at h
    by_cases hc : c = ':'
    · rw [if_pos hc] at h
      exact absurd h (by simp)
    · rw [if_neg hc] at h
      cases hs : splitAtFirstColon cs with
      | none =>
        simp only [List.mem_cons, not_or]
        exact ⟨fun he => hc he.symm, ih hs⟩
      | some pr => rw [hs] at h; simp at h

lemma splitAtFirstColon_append (l₁ r : List Char) (h : ':' ∉ l₁) :
    splitAtFirstColon (l₁ ++ ':' :: r) = some (l₁, r) := by
  induction l₁ with
  | nil => simp [splitAtFirstColon]
  | cons c cs ih =>
    simp only [List.mem_cons, not_or] at h
    rw [List.cons_append]
    unfold splitAtFirstColon
    rw [if_neg (fun hc => h.1 hc.symm), ih h.2]

lemma splitAtFirstColon_some {l l₁ r : List Char}
    (h : splitAtFirstColon l = some (l₁, r)) : ':' ∉ l₁ ∧ l = l₁ ++ ':' :: r := by
  induction l generalizing l₁ r with
  | nil => simp [splitAtFirstColon] at h
  | cons c cs ih =>
    unfold splitAtFirstColon at h
    by_cases hc : c = ':'
    · rw [if_pos hc] at h
      simp only [Option.some.injEq, Prod.mk.injEq] at h
      obtain ⟨h1, h2⟩ := h
      subst h1; subst h2; subst hc
      simp
    · rw [if_neg hc] at h
      cases hs : splitAtFirstColon cs with
      | none => rw [hs] at h; simp at h
      | some pr =>
        obtain ⟨l₂, r₂⟩ := pr
        rw [hs] at h
        simp only [Option.some.injEq, Prod.mk.injEq] at h
        obtain ⟨h1, h2⟩ := h
        obtain ⟨hn, he⟩ := ih hs
        subst h1; subst h2
        constructor
        · simp only [List.mem_cons, not_or]
          exact ⟨fun hce => hc hce.symm, hn⟩
        · rw [List.cons_append, ← he]

lemma decodePlaceholder_eq_of_none {s : String}
    (h : splitAtFirstColon s.data = none) :
    decodePlaceholder s = ⟨String.mk (trimChars s.data), ""⟩ := by
  unfold decodePlaceholder
  rw [h]

lemma decodePlaceholder_eq_of_some {s : String} {l r : List Char}
    (h : splitAtFirstColon s.data = some (l, r)) :
    decodePlaceholder s = ⟨String.mk (trimChars l), String.mk (trimChars r)⟩ := by
  unfold decodePlaceholder
  rw [h]

/-! ### Placeholder decoding: claims C3 and C4 -/

/-- Claim C3, counterexample: on the explicit input of the claim,
"<<title: The product name>>", the first-colon split-and-trim algorithm
yields the name "<<title" and the description "The product name>>", not the
name "<<title>>" with description "The product name" stated by the claim. -/
theorem decode_title_example_counterexample :
    decodePlaceholder "<<title: The product name>>" =
      ⟨"<<title", "The product name>>"⟩ ∧
    ("<<title" : String) ≠ "<<title>>" := by
  constructor
  · rfl
  · decide

/-- Claim C3 (amended): the decoding operation splits on the first colon
only — if the placeholder reads `l ++ colon ++ r` with no colon in `l`, the
trimmed `l` becomes the name and the trimmed `r` the description; with no
colon the name is the whole trimmed string and the description is empty.
Consequently "<<title: The product name>>" decodes to name "<<title" and
description "The product name>>" (the claim expected the angle brackets to
be rebalanced, which the split-and-trim rule does not do), "<<features>>"
decodes to name "<<features>>" with empty description, "a: b: c" decodes to
name "a" and description "b: c", and the output sequence preserves input
order. -/
theorem decode_splits_on_first_colon :
    (∀ (s : String) (l r : List Char), s.data = l ++ ':' :: r → ':' ∉ l →
        decodePlaceholder s = ⟨String.mk (trimChars l), String.mk (trimChars r)⟩) ∧
    (∀ s : String, ':' ∉ s.data →
        decodePlaceholder s = ⟨String.mk (trimChars s.data), ""⟩) ∧
    decodePlaceholder "<<title: The product name>>" =
      ⟨"<<title", "The product name>>"⟩ ∧
    decodePlaceholder "<<features>>" = ⟨"<<features>>", ""⟩ ∧
    decodePlaceholder "a: b: c" = ⟨"a", "b: c"⟩ ∧
    (∀ ss : List String, (decodePlaceholders ss).length = ss.length ∧
      ∀ (i : Nat) (h1 : i < (decodePlaceholders ss).length) (h2 : i < ss.length),
        (decodePlaceholders ss).get ⟨i, h1⟩ = decodePlaceholder (ss.get ⟨i, h2⟩)) := by
  refine ⟨?_, ?_, rfl, rfl, rfl, ?_⟩
  · intro s l r hs hl
    exact decodePlaceholder_eq_of_some (by rw [hs]; exact splitAtFirstColon_append l r hl)
  · intro s hs
    exact decodePlaceholder_eq_of_none (splitAtFirstColon_eq_none hs)
  · intro ss
    refine ⟨List.length_map ss decodePlaceholder, ?_⟩
    intro i h1 h2
    simp [decodePlaceholders]

/-- Claim C3 (amended), witness: a concrete colon-bearing placeholder
decoded through the split rule. -/
theorem decode_splits_on_first_colon_witness :
    decodePlaceholder "x :y" = ⟨"x", "y"⟩ := by
  have h := decode_splits_on_first_colon.1 "x :y" ['x', ' '] ['y'] rfl (by decide)
  exact h

/-- Claim C4: decoding is idempotent on names — re-running the decoding
algorithm on the name field of its own output returns that name unchanged
with an empty description (the name never contains a colon and is already
trimmed). -/
theorem decode_idempotent_on_name (s : String) :
    decodePlaceholder (decodePlaceholder s).name = ⟨(decodePlaceholder s).name, ""⟩ := by
  cases h : splitAtFirstColon s.data with
  | none =>
    rw [decodePlaceholder_eq_of_none h]
    dsimp only
    have h0 := colon_notMem_of_splitAtFirstColon_none h
    have hn : ':' ∉ trimChars s.data := fun hm => h0 (mem_of_mem_trimChars hm)
    have h2 : splitAtFirstColon (String.mk (trimChars s.data)).data = none := by
      rw [string_mk_data]
      exact splitAtFirstColon_eq_none hn
    rw [decodePlaceholder_eq_of_none h2, string_mk_data, trimChars_idem]
  | some pr =>
    obtain ⟨l, r⟩ := pr
    rw [decodePlaceholder_eq_of_some h]
    dsimp only
    obtain ⟨hn, _⟩ := splitAtFirstColon_some h
    have hn2 : ':' ∉ trimChars l := fun hm => hn (mem_of_mem_trimChars hm)
    have h2 : splitAtFirstColon (String.mk (trimChars l)).data = none := by
      rw [string_mk_data]
      exact splitAtFirstColon_eq_none hn2
    rw [decodePlaceholder_eq_of_none h2, string_mk_data, trimChars_idem]

/-! ### Request validation: claim C7 -/

lemma getStrList_map_str (phs : List String) :
    Json.getStrList (phs.map Json.str) = some phs := by
  induction phs with
  | nil => rfl
  | cons a t ih =>
    rw [List.map_cons]
    unfold Json.getStrList
    rw [ih]
    rfl

/-- Claim C7, counterexample: a request whose `problem_statement`, `domain`
and `output_context` are all the empty string passes validation — the
pydantic schema checks types only, so the invariant-violating request is
accepted rather than rejected before the pipeline runs. -/
theorem request_empty_strings_accepted :
    validatePromptGenInput
        [("problem_statement", .str ""), ("domain", .str ""),
         ("input_placeholders", .arr []), ("output_context", .str "")] =
      some ⟨"", "", [], "", none⟩ := rfl

/-- Claim C7 (amended): every accepted request has fields of the declared
types — strings for `problem_statement`, `domain` and `output_context`, a
possibly empty sequence of strings for `input_placeholders` — but
non-emptiness of the string fields is not validated: any well-typed body is
accepted whatever its strings, including empty ones, so no
invariant-violating request is rejected on emptiness grounds. -/
theorem request_validation_types_only (ps d : String) (phs : List String) (oc : String) :
    validatePromptGenInput (mkRequestBody ps d phs oc) = some ⟨ps, d, phs, oc, none⟩ := by
  unfold validatePromptGenInput mkRequestBody
  simp [List.lookup, getStrList_map_str, Json.getStr]

/-! ### Router behavior: claims C1, C8, C9, C10 -/

lemma create_prompt_of_resolved_obj {parse : String → Option Json}
    {res : CrewResult} {kvs : List (String × Json)}
    (h : resolveFinalData parse res = .ok (.obj kvs)) :
    create_prompt parse res = finishWithObj kvs := by
  unfold create_prompt
  rw [h]

lemma finishWithObj_of_none {kvs : List (String × Json)}
    (h : kvs.lookup "final_prompt" = none) :
    finishWithObj kvs = .error .noFinalPrompt := by
  unfold finishWithObj
  rw [h]

lemma finishWithObj_of_some {kvs : List (String × Json)} {fp : Json}
    (h : kvs.lookup "final_prompt" = some fp) :
    finishWithObj kvs =
      if fp.truthy then .ok ⟨"success", fp, (kvs.lookup "notes").getD (.arr [])⟩
      else .error .noFinalPrompt := by
  unfold finishWithObj
  rw [h]

lemma resolveFinalData_of_none {parse : String → Option Json} {res : CrewResult}
    (h : res.json_dict = none) :
    resolveFinalData parse res =
      match parse (pyOrStr res.raw "") with
      | none => .error (.nonJsonOutput (pyOrStr res.raw ""))
      | some j2 => .ok j2 := by
  unfold resolveFinalData
  rw [h]

lemma resolveFinalData_of_some {parse : String → Option Json} {res : CrewResult}
    {j : Json} (h : res.json_dict = some j) :
    resolveFinalData parse res =
      if j.truthy then .ok j
      else
        match parse (pyOrStr res.raw "") with
        | none => .error (.nonJsonOutput (pyOrStr res.raw ""))
        | some j2 => .ok j2 := by
  unfold resolveFinalData
  rw [h]

lemma create_prompt_ok_truthy {parse : String → Option Json} {res : CrewResult}
    {resp : SuccessResponse} (h : create_prompt parse res = .ok resp) :
    resp.final_prompt.truthy = true := by
  cases hr : resolveFinalData parse res with
  | error e =>
    unfold create_prompt at h
    rw [hr] at h
    exact (nomatch h)
  | ok fd =>
    cases fd
    case obj kvs =>
      rw [create_prompt_of_resolved_obj hr] at h
      cases hl : kvs.lookup "final_prompt" with
      | none =>
        rw [finishWithObj_of_none hl] at h
        exact (nomatch h)
      | some fp =>
        rw [finishWithObj_of_some hl] at h
        by_cases ht : fp.truthy
        · rw [if_pos ht] at h
          have h2 : (⟨"success", fp, (kvs.lookup "notes").getD (.arr [])⟩ :
              SuccessResponse) = resp := by injection h
          rw [← h2]
          exact ht
        · rw [if_neg ht] at h
          exact (nomatch h)
    all_goals (unfold create_prompt at h; rw [hr] at h; exact (nomatch h))

/-- Claim C1: when the resolved final JSON object omits `final_prompt` or
maps it to the empty string, `create_prompt` fails with the
`FinalResultInvalid` error (`noFinalPrompt`); and no success response it
returns ever lacks a truthy, non-empty `final_prompt`. -/
theorem router_final_prompt_required (parse : String → Option Json) (res : CrewResult) :
    (∀ kvs : List (String × Json), resolveFinalData parse res = .ok (.obj kvs) →
        kvs.lookup "final_prompt" = none ∨ kvs.lookup "final_prompt" = some (.str "") →
        create_prompt parse res = .error .noFinalPrompt) ∧
    (∀ resp : SuccessResponse, create_prompt parse res = .ok resp →
        resp.final_prompt.truthy = true ∧ resp.final_prompt ≠ .str "") := by
  constructor
  · intro kvs hres hor
    rw [create_prompt_of_resolved_obj hres]
    rcases hor with h1 | h1
    · rw [finishWithObj_of_none h1]
    · rw [finishWithObj_of_some h1]
      rfl
  · intro resp h
    have ht := create_prompt_ok_truthy h
    refine ⟨ht, ?_⟩
    intro he
    rw [he] at ht
    simp [Json.truthy] at ht

/-- Claim C1, witness: a final object without the `final_prompt` key makes
the router fail with the `FinalResultInvalid` error. -/
theorem router_final_prompt_required_witness :
    create_prompt (fun _ => none) ⟨some (.obj [("draftPrompt", .str "d")]), none⟩ =
      .error .noFinalPrompt :=
  (router_final_prompt_required (fun _ => none)
      ⟨some (.obj [("draftPrompt", .str "d")]), none⟩).1
    [("draftPrompt", .str "d")] rfl (Or.inl rfl)

/-- Claim C8: the success condition checks only Python truthiness of the
`final_prompt` value, not that it is a non-empty string — any truthy JSON
value is returned as success, while a falsy value or an absent key yields
the error. -/
theorem router_checks_truthiness_only (parse : String → Option Json)
    (res : CrewResult) (kvs : List (String × Json))
    (hres : resolveFinalData parse res = .ok (.obj kvs)) :
    (∀ v : Json, kvs.lookup "final_prompt" = some v → v.truthy = true →
        create_prompt parse res =
          .ok ⟨"success", v, (kvs.lookup "notes").getD (.arr [])⟩) ∧
    (∀ v : Json, kvs.lookup "final_prompt" = some v → v.truthy = false →
        create_prompt parse res = .error .noFinalPrompt) ∧
    (kvs.lookup "final_prompt" = none →
        create_prompt parse res = .error .noFinalPrompt) := by
  refine ⟨?_, ?_, ?_⟩
  · intro v hl ht
    rw [create_prompt_of_resolved_obj hres, finishWithObj_of_some hl, if_pos ht]
  · intro v hl ht
    rw [create_prompt_of_resolved_obj hres, finishWithObj_of_some hl,
      if_neg (by simp [ht])]
  · intro hl
    rw [create_prompt_of_resolved_obj hres, finishWithObj_of_none hl]

/-- Claim C8, witness: the truthy non-string value 7 under `final_prompt`
is returned as a success result. -/
theorem router_checks_truthiness_only_witness :
    create_prompt (fun _ => none) ⟨some (.obj [("final_prompt", .num 7)]), none⟩ =
      .ok ⟨"success", .num 7, .arr []⟩ :=
  (router_checks_truthiness_only (fun _ => none)
      ⟨some (.obj [("final_prompt", .num 7)]), none⟩
      [("final_prompt", .num 7)] rfl).1 (.num 7) rfl rfl

/-- Claim C9: the `notes` field of a success result is passed through from
the final JSON without type validation — a present `notes` key is returned
verbatim whatever its JSON type, and the empty list is returned only when
the key is absent. -/
theorem router_notes_passthrough (parse : String → Option Json)
    (res : CrewResult) (kvs : List (String × Json)) (v : Json)
    (hres : resolveFinalData parse res = .ok (.obj kvs))
    (hfp : kvs.lookup "final_prompt" = some v) (hv : v.truthy = true) :
    (∀ w : Json, kvs.lookup "notes" = some w →
        create_prompt parse res = .ok ⟨"success", v, w⟩) ∧
    (kvs.lookup "notes" = none →
        create_prompt parse res = .ok ⟨"success", v, .arr []⟩) := by
  constructor
  · intro w hw
    rw [create_prompt_of_resolved_obj hres, finishWithObj_of_some hfp,
      if_pos hv, hw]
    rfl
  · intro hw
    rw [create_prompt_of_resolved_obj hres, finishWithObj_of_some hfp,
      if_pos hv, hw]
    rfl

/-- Claim C9, witness: a numeric `notes` value is returned verbatim. -/
theorem router_notes_passthrough_witness :
    create_prompt (fun _ => none)
      ⟨some (.obj [("final_prompt", .str "p"), ("notes", .num 5)]), none⟩ =
      .ok ⟨"success", .str "p", .num 5⟩ :=
  (router_notes_passthrough (fun _ => none)
      ⟨some (.obj [("final_prompt", .str "p"), ("notes", .num 5)]), none⟩
      [("final_prompt", .str "p"), ("notes", .num 5)] (.str "p") rfl rfl rfl).1
    (.num 5) rfl

lemma resolveFinalData_fallback {parse : String → Option Json} {res : CrewResult}
    (hfal : res.json_dict = none ∨ ∃ j, res.json_dict = some j ∧ j.truthy = false) :
    resolveFinalData parse res =
      match parse (pyOrStr res.raw "") with
      | none => .error (.nonJsonOutput (pyOrStr res.raw ""))
      | some j2 => .ok j2 := by
  rcases hfal with h | ⟨j, h, ht⟩
  · exact resolveFinalData_of_none h
  · rw [resolveFinalData_of_some h, if_neg (by simp [ht])]

/-- Claim C10: when `result.json_dict` is absent or falsy (including an
empty JSON object), the router falls back to parsing the raw text: an
unparsable raw text fails with the non-JSON error carrying that raw text,
and a raw text parsing to a non-object fails with the
no-valid-JSON-structure error; neither case returns success. -/
theorem router_raw_fallback (parse : String → Option Json) (res : CrewResult)
    (hfal : res.json_dict = none ∨ ∃ j, res.json_dict = some j ∧ j.truthy = false) :
    (parse (pyOrStr res.raw "") = none →
        create_prompt parse res = .error (.nonJsonOutput (pyOrStr res.raw ""))) ∧
    (∀ j2 : Json, parse (pyOrStr res.raw "") = some j2 → j2.isObj = false →
        create_prompt parse res = .error .noValidJsonStructure) := by
  constructor
  · intro hp
    unfold create_prompt
    rw [resolveFinalData_fallback hfal, hp]
  · intro j2 hp hobj
    unfold create_prompt
    rw [resolveFinalData_fallback hfal, hp]
    cases j2
    case obj kvs => simp [Json.isObj] at hobj
    all_goals rfl

/-- Claim C10, witness: an empty structured parse with unparsable raw text
yields the non-JSON error carrying the raw text. -/
theorem router_raw_fallback_witness :
    create_prompt (fun _ => none) ⟨some (.obj []), some "plain text"⟩ =
      .error (.nonJsonOutput "plain text") :=
  (router_raw_fallback (fun _ => none) ⟨some (.obj []), some "plain text"⟩
      (Or.inr ⟨.obj [], rfl, rfl⟩)).1 rfl

/-! ### Pipeline Runner: claims C2, C5, C6 -/

lemma isObj_true_iff (j : Json) : j.isObj = true ↔ ∃ kvs, j = .obj kvs := by
  cases j <;> simp [Json.isObj]

lemma runStagesTrace_cons_obj {invoke : StageDef → PipelineCtx → String}
    {parse : String → Option Json} {st : StageDef} {rest : List StageDef}
    {ctx : PipelineCtx} {kvs : List (String × Json)}
    (h : parse (invoke st ctx) = some (.obj kvs)) :
    runStagesTrace invoke parse (st :: rest) ctx =
      (st.name ::
        (runStagesTrace invoke parse rest (ctx ++ [(st.name, .obj kvs)])).1,
       (runStagesTrace invoke parse rest (ctx ++ [(st.name, .obj kvs)])).2) := by
  simp only [runStagesTrace, h]

lemma runStagesTrace_cons_bad {invoke : StageDef → PipelineCtx → String}
    {parse : String → Option Json} {st : StageDef} {rest : List StageDef}
    {ctx : PipelineCtx}
    (h : parse (invoke st ctx) = none ∨
        ∃ j, parse (invoke st ctx) = some j ∧ j.isObj = false) :
    runStagesTrace invoke parse (st :: rest) ctx =
      ([st.name], .error (.stageOutputInvalid st.name (invoke st ctx))) := by
  rcases h with h | ⟨j, h, hobj⟩
  · simp only [runStagesTrace, h]
  · cases j
    case obj kvs => simp [Json.isObj] at hobj
    all_goals simp only [runStagesTrace, h]

lemma ctxAfter_cons_obj {invoke : StageDef → PipelineCtx → String}
    {parse : String → Option Json} {s : StageDef} {pre : List StageDef}
    {ctx : PipelineCtx} {kvs : List (String × Json)}
    (h : parse (invoke s ctx) = some (.obj kvs)) :
    ctxAfter invoke parse (s :: pre) ctx =
      ctxAfter invoke parse pre (ctx ++ [(s.name, .obj kvs)]) := by
  simp only [ctxAfter, h]

lemma runPipeline_of_error {invoke : StageDef → PipelineCtx → String}
    {parse : String → Option Json} {stages : List StageDef}
    {tr : List String} {e : RunError}
    (h : runStagesTrace invoke parse stages [] = (tr, .error e)) :
    runPipeline invoke parse stages = (tr, .error e) := by
  unfold runPipeline
  rw [h]

lemma runPipeline_of_ok {invoke : StageDef → PipelineCtx → String}
    {parse : String → Option Json} {stages : List StageDef}
    {tr : List String} {ctx1 : PipelineCtx}
    (h : runStagesTrace invoke parse stages [] = (tr, .ok ctx1)) :
    runPipeline invoke parse stages =
      match ctx1.getLast? with
      | some (_, .obj kvs) => (tr, validateFinal kvs)
      | _ => (tr, .error .finalResultInvalid) := by
  unfold runPipeline
  rw [h]

lemma runPipeline_of_ok_obj {invoke : StageDef → PipelineCtx → String}
    {parse : String → Option Json} {stages : List StageDef}
    {tr : List String} {ctx1 : PipelineCtx} {nm : String}
    {kvs : List (String × Json)}
    (h : runStagesTrace invoke parse stages [] = (tr, .ok ctx1))
    (hl : ctx1.getLast? = some (nm, .obj kvs)) :
    runPipeline invoke parse stages = (tr, validateFinal kvs) := by
  rw [runPipeline_of_ok h, hl]

lemma validateFinal_ok_ne_empty {kvs : List (String × Json)} {fr : FinalResult}
    (h : validateFinal kvs = .ok fr) : fr.final_prompt ≠ "" := by
  cases hl : kvs.lookup "final_prompt" with
  | none =>
    simp only [validateFinal, hl] at h
    exact (nomatch h)
  | some j =>
    cases j with
    | str p =>
      simp only [validateFinal, hl] at h
      by_cases hp : p = ""
      · rw [if_pos hp] at h
        exact (nomatch h)
      · rw [if_neg hp] at h
        cases hn : kvs.lookup "notes" with
        | none =>
          simp only [hn] at h
          injection h with h2
          rw [← h2]
          exact hp
        | some w =>
          simp only [hn] at h
          cases w with
          | arr xs =>
            cases hg : Json.getStrList xs with
            | some ns =>
              simp only [hg] at h
              injection h with h2
              rw [← h2]
              exact hp
            | none =>
              simp only [hg] at h
              exact (nomatch h)
          | null => exact (nomatch h)
          | bool b => exact (nomatch h)
          | num n => exact (nomatch h)
          | str s2 => exact (nomatch h)
          | obj kvs2 => exact (nomatch h)
    | null => simp only [validateFinal, hl] at h; exact (nomatch h)
    | bool b => simp only [validateFinal, hl] at h; exact (nomatch h)
    | num n => simp only [validateFinal, hl] at h; exact (nomatch h)
    | arr xs => simp only [validateFinal, hl] at h; exact (nomatch h)
    | obj kvs2 => simp only [validateFinal, hl] at h; exact (nomatch h)

lemma runStagesTrace_good (invoke : StageDef → PipelineCtx → String)
    (parse : String → Option Json) :
    ∀ (stages : List StageDef) (ctx0 : PipelineCtx),
      (∀ s ∈ stages, ∀ ctx, ∃ kvs, parse (invoke s ctx) = some (.obj kvs)) →
      ∃ ctx1,
        runStagesTrace invoke parse stages ctx0 = (stages.map (·.name), .ok ctx1) ∧
        ((stages = [] ∧ ctx1 = ctx0) ∨
         (∃ st ctx kvs, stages.getLast? = some st ∧
            parse (invoke st ctx) = some (.obj kvs) ∧
            ctx1.getLast? = some (st.name, .obj kvs))) := by
  intro stages
  induction stages with
  | nil =>
    intro ctx0 _
    exact ⟨ctx0, rfl, Or.inl ⟨rfl, rfl⟩⟩
  | cons st rest ih =>
    intro ctx0 h
    obtain ⟨kvs, hkvs⟩ := h st (List.mem_cons_self st rest) ctx0
    obtain ⟨ctx1, hrun, hlast⟩ := ih (ctx0 ++ [(st.name, .obj kvs)])
      (fun s hs ctx => h s (List.mem_cons_of_mem st hs) ctx)
    refine ⟨ctx1, ?_, ?_⟩
    · rw [runStagesTrace_cons_obj hkvs, hrun]
      rfl
    · rcases hlast with ⟨hnil, hctx⟩ | ⟨st2, ctx2, kvs2, hst2, hp2, hl2⟩
      · right
        refine ⟨st, ctx0, kvs, ?_, hkvs, ?_⟩
        · rw [hnil]
          rfl
        · rw [hctx]
          exact List.getLast?_concat _
      · right
        refine ⟨st2, ctx2, kvs2, ?_, hp2, hl2⟩
        cases rest with
        | nil => simp at hst2
        | cons r rs =>
          rw [List.getLast?_cons_cons]
          exact hst2

lemma runStagesTrace_fail_at (invoke : StageDef → PipelineCtx → String)
    (parse : String → Option Json) (st : StageDef) (post : List StageDef)
    (hst : ∀ ctx, parse (invoke st ctx) = none ∨
        ∃ j, parse (invoke st ctx) = some j ∧ j.isObj = false) :
    ∀ (pre : List StageDef) (ctx0 : PipelineCtx),
      (∀ s ∈ pre, ∀ ctx, ∃ kvs, parse (invoke s ctx) = some (.obj kvs)) →
      runStagesTrace invoke parse (pre ++ st :: post) ctx0 =
        (pre.map (·.name) ++ [st.name],
         .error (.stageOutputInvalid st.name
           (invoke st (ctxAfter invoke parse pre ctx0)))) := by
  intro pre
  induction pre with
  | nil =>
    intro ctx0 _
    rw [List.nil_append, runStagesTrace_cons_bad (hst ctx0)]
    rfl
  | cons s pre2 ih =>
    intro ctx0 h
    obtain ⟨kvs, hkvs⟩ := h s (List.mem_cons_self s pre2) ctx0
    have hih := ih (ctx0 ++ [(s.name, Json.obj kvs)])
      (fun x hx ctx => h x (List.mem_cons_of_mem s hx) ctx)
    rw [List.cons_append, runStagesTrace_cons_obj hkvs, hih,
      ctxAfter_cons_obj hkvs]
    rfl

lemma runStagesTrace_trace_spec (invoke : StageDef → PipelineCtx → String)
    (parse : String → Option Json) :
    ∀ (stages : List StageDef) (ctx0 : PipelineCtx),
      (∃ rest, (runStagesTrace invoke parse stages ctx0).1 ++ rest =
        stages.map (·.name)) ∧
      (∀ ctx1, (runStagesTrace invoke parse stages ctx0).2 = .ok ctx1 →
        (runStagesTrace invoke parse stages ctx0).1 = stages.map (·.name)) := by
  intro stages
  induction stages with
  | nil =>
    intro ctx0
    exact ⟨⟨[], rfl⟩, fun _ _ => rfl⟩
  | cons st rest ih =>
    intro ctx0
    cases hp : parse (invoke st ctx0) with
    | none =>
      rw [runStagesTrace_cons_bad (Or.inl hp)]
      refine ⟨⟨List.map StageDef.name rest, ?_⟩, fun ctx1 h2 => (nomatch h2)⟩
      rfl
    | some j =>
      by_cases hobj : j.isObj
      · obtain ⟨kvs, rfl⟩ := (isObj_true_iff j).mp hobj
        rw [runStagesTrace_cons_obj hp]
        obtain ⟨⟨r, hr⟩, himp⟩ := ih (ctx0 ++ [(st.name, .obj kvs)])
        constructor
        · refine ⟨r, ?_⟩
          rw [List.map_cons, ← hr]
          rfl
        · intro ctx1 h2
          have h3 := himp ctx1 h2
          show st.name ::
            (runStagesTrace invoke parse rest (ctx0 ++ [(st.name, .obj kvs)])).1 =
            (st :: rest).map (·.name)
          rw [List.map_cons, h3]
      · rw [runStagesTrace_cons_bad (Or.inr ⟨j, hp, by simpa using hobj⟩)]
        refine ⟨⟨List.map StageDef.name rest, ?_⟩, fun ctx1 h2 => (nomatch h2)⟩
        rfl

lemma runPipeline_fst (invoke : StageDef → PipelineCtx → String)
    (parse : String → Option Json) (stages : List StageDef) :
    (runPipeline invoke parse stages).1 =
      (runStagesTrace invoke parse stages []).1 := by
  cases h : runStagesTrace invoke parse stages [] with
  | mk tr r2 =>
    cases r2 with
    | error e => rw [runPipeline_of_error h]
    | ok ctx1 =>
      rw [runPipeline_of_ok h]
      cases hl : ctx1.getLast? with
      | none => rfl
      | some pr =>
        obtain ⟨nm, jv⟩ := pr
        cases jv <;> rfl

lemma runPipeline_snd_ok {invoke : StageDef → PipelineCtx → String}
    {parse : String → Option Json} {stages : List StageDef} {fr : FinalResult}
    (h : (runPipeline invoke parse stages).2 = .ok fr) :
    ∃ ctx1, (runStagesTrace invoke parse stages []).2 = .ok ctx1 := by
  cases hrun : runStagesTrace invoke parse stages [] with
  | mk tr r2 =>
    cases r2 with
    | error e =>
      rw [runPipeline_of_error hrun] at h
      exact (nomatch h)
    | ok ctx1 => exact ⟨ctx1, rfl⟩

/-- Claim C2: for every run, if some stage response fails to parse as JSON
or parses to a non-object, the run fails with `stageOutputInvalid` carrying
exactly that stage name and the raw text that stage received, and the trace
of invoked stages stops at that stage — no later stage is invoked. -/
theorem stage_failure_aborts_pipeline (invoke : StageDef → PipelineCtx → String)
    (parse : String → Option Json) (pre post : List StageDef) (st : StageDef)
    (hpre : ∀ s ∈ pre, ∀ ctx, ∃ kvs, parse (invoke s ctx) = some (.obj kvs))
    (hst : ∀ ctx, parse (invoke st ctx) = none ∨
        ∃ j, parse (invoke st ctx) = some j ∧ j.isObj = false) :
    runPipeline invoke parse (pre ++ st :: post) =
      (pre.map (fun x => x.name) ++ [st.name],
       .error (.stageOutputInvalid st.name
         (invoke st (ctxAfter invoke parse pre [])))) :=
  runPipeline_of_error (runStagesTrace_fail_at invoke parse st post hst pre [] hpre)

/-- Claim C2, witness: with a stub model whose schema-inference stage
returns non-JSON text, the five-stage pipeline of the repository aborts at
that stage with the error carrying its name and raw text, and the two
later stages are never invoked. -/
theorem stage_failure_aborts_pipeline_witness :
    runPipeline stubInvoke stubParseBadAtSchema promptGenStages =
      (["domain_breakdown_task", "input_analysis_task", "schema_inference_task"],
       .error (.stageOutputInvalid "schema_inference_task"
         "schema_inference_task")) := by
  have h := stage_failure_aborts_pipeline stubInvoke stubParseBadAtSchema
    [⟨"domain_breakdown_task", "Domain Breakdown Analyzer for {domain}", []⟩,
     ⟨"input_analysis_task", "Input Analysis Agent in {domain}",
       ["domain_breakdown_task"]⟩]
    [⟨"prompt_construction_task", "Prompt Constructor for {domain}",
       ["schema_inference_task"]⟩,
     ⟨"prompt_refinement_task", "Prompt Refiner for {domain}",
       ["prompt_construction_task"]⟩]
    ⟨"schema_inference_task", "Schema Inference Expert for {domain}",
      ["input_analysis_task"]⟩
    (by
      intro s hs ctx
      simp only [List.mem_cons, List.mem_singleton] at hs
      rcases hs with rfl | rfl | hs
      · exact ⟨_, rfl⟩
      · exact ⟨_, rfl⟩
      · exact absurd hs (List.not_mem_nil s))
    (fun ctx => Or.inl rfl)
  exact h

/-- Claim C5: for every valid request and every stub model returning a
well-formed JSON object at every stage whose final-stage object validates
against the Final Result schema, the pipeline run terminates successfully
with a Final Result whose `final_prompt` is a non-empty string. -/
theorem pipeline_good_run_final_prompt (req : PromptGenInput)
    (hreq : req.problem_statement ≠ "" ∧ req.domain ≠ "" ∧ req.output_context ≠ "")
    (mkInvoke : PromptGenInput → StageDef → PipelineCtx → String)
    (parse : String → Option Json) (stages : List StageDef)
    (hne : stages ≠ [])
    (hgood : ∀ s ∈ stages, ∀ ctx, ∃ kvs,
        parse (mkInvoke req s ctx) = some (.obj kvs))
    (hfinal : ∀ st, stages.getLast? = some st → ∀ ctx kvs,
        parse (mkInvoke req st ctx) = some (.obj kvs) →
        ∃ fr, validateFinal kvs = .ok fr) :
    ∃ fr, (runPipeline (mkInvoke req) parse stages).2 = .ok fr ∧
      fr.final_prompt ≠ "" := by
  obtain ⟨ctx1, hrun, hlast⟩ :=
    runStagesTrace_good (mkInvoke req) parse stages [] hgood
  rcases hlast with ⟨hnil, _⟩ | ⟨st, ctx, kvs, hst, hp, hl⟩
  · exact absurd hnil hne
  · obtain ⟨fr, hfr⟩ := hfinal st hst ctx kvs hp
    refine ⟨fr, ?_, validateFinal_ok_ne_empty hfr⟩
    rw [runPipeline_of_ok_obj hrun hl, hfr]

/-- Claim C5, witness: the spec scenario request with an all-good stub model
makes the five-stage repository pipeline succeed. -/
theorem pipeline_good_run_final_prompt_witness :
    (runPipeline (stubMkInvoke
      ⟨"Summarize articles", "journalism", ["<<article: full text>>"],
       "A concise summary", some "markdown"⟩) stubParseGood
      promptGenStages).2.isOk = true := by
  obtain ⟨fr, hok, _⟩ :=
    pipeline_good_run_final_prompt
      ⟨"Summarize articles", "journalism", ["<<article: full text>>"],
       "A concise summary", some "markdown"⟩
      ⟨by decide, by decide, by decide⟩
      stubMkInvoke stubParseGood promptGenStages
      (by decide)
      (by
        intro s _ ctx
        unfold stubParseGood stubMkInvoke stubInvoke
        split
        · exact ⟨_, rfl⟩
        · exact ⟨_, rfl⟩)
      (by
        intro st hst ctx kvs hp
        have hq : promptGenStages.getLast? =
            some ⟨"prompt_refinement_task", "Prompt Refiner for {domain}",
              ["prompt_construction_task"]⟩ := rfl
        rw [hq] at hst
        injection hst with h2
        subst h2
        have hv : stubParseGood (stubMkInvoke
            ⟨"Summarize articles", "journalism", ["<<article: full text>>"],
             "A concise summary", some "markdown"⟩
            ⟨"prompt_refinement_task", "Prompt Refiner for {domain}",
              ["prompt_construction_task"]⟩ ctx) =
            some (.obj [("final_prompt", .str "Use <<article>> verbatim."),
              ("notes", .arr [])]) := rfl
        rw [hv] at hp
        injection hp with h3
        injection h3 with h4
        subst h4
        exact ⟨⟨"Use <<article>> verbatim.", []⟩, rfl⟩)
  rw [hok]
  rfl

/-- Claim C6: in every run the invoked-stage trace is an initial segment of
the declared stage order — stages execute strictly in declared order, none
skipped or repeated, the run stopping at the first failure — and on success
the trace is exactly the declared stage list, each stage invoked once. -/
theorem stages_execute_in_declared_order (invoke : StageDef → PipelineCtx → String)
    (parse : String → Option Json) (stages : List StageDef) :
    (∃ rest, (runPipeline invoke parse stages).1 ++ rest =
      stages.map (fun x => x.name)) ∧
    (∀ fr : FinalResult, (runPipeline invoke parse stages).2 = .ok fr →
      (runPipeline invoke parse stages).1 = stages.map (fun x => x.name)) := by
  obtain ⟨⟨r, hr⟩, himp⟩ := runStagesTrace_trace_spec invoke parse stages []
  constructor
  · refine ⟨r, ?_⟩
    rw [runPipeline_fst]
    exact hr
  · intro fr h
    obtain ⟨ctx1, hok⟩ := runPipeline_snd_ok h
    rw [runPipeline_fst]
    exact himp ctx1 hok

/-- Claim C6, witness: a successful run of the repository pipeline invokes
exactly the five declared stages, once each, in declared order. -/
theorem stages_execute_in_declared_order_witness :
    (runPipeline stubInvoke stubParseGood promptGenStages).1 =
      ["domain_breakdown_task", "input_analysis_task", "schema_inference_task",
       "prompt_construction_task", "prompt_refinement_task"] := by
  have h := (stages_execute_in_declared_order stubInvoke stubParseGood
      promptGenStages).2 ⟨"Use <<article>> verbatim.", []⟩ rfl
  exact h
